import Mathlib

/-!
Verification of the class-finder caching and background-warming engine.

We give a shallow embedding of the core components (Write Buffer, Class
Registry, Hotspot Tracker, Warmer scheduler, Incremental Indexer) and prove
the specified properties about them.  Persistent tables of the store are
modelled as functions from string keys to optional values; machine integers
(u32, u64) are modelled as natural numbers with explicit saturation or
truncation where the source saturates or casts; the stateful background
loops are modelled as explicit step functions over event traces, so that a
property quantified over interleavings becomes a property quantified over
traces.
-/

namespace ClassFinder

/-- Largest u32 value; `saturating_add` on a u32 caps at this bound. -/
def u32Max : Nat := 2 ^ 32 - 1

/-- Largest u64 value; `u64::try_from(nanos).unwrap_or(u64::MAX)` caps at this bound. -/
def u64Max : Nat := 2 ^ 64 - 1

/-! ## warmup.rs: task modes and priorities -/

/-- `WarmupMode` from warmup.rs: decompile only top-level classes, or all classes. -/
inductive WarmupMode where
  | TopLevelOnly
  | AllClasses
deriving DecidableEq, Repr

/-- `WarmupPriority` from warmup.rs, with discriminants Low = 0, Normal = 1, High = 2. -/
inductive WarmupPriority where
  | Low
  | Normal
  | High
deriving DecidableEq, Repr

/-- The integer discriminant of a priority, which drives its derived `Ord`. -/
def WarmupPriority.toNat : WarmupPriority → Nat
  | .Low => 0
  | .Normal => 1
  | .High => 2

/-! ## hotspot.rs: the Hotspot Tracker -/

/-- `JarHotspot` from hotspot.rs: the per-artifact record stored in the
jar_hotspot table.  `access_count` is a u32, `last_access` a u64. -/
structure JarHotspot where
  access_count : Nat
  last_access : Nat
  warmed : Bool
  class_count : Nat
deriving DecidableEq, Repr

/-- `Default` for `JarHotspot`: all fields zero / false, as produced by
`unwrap_or_default()` when no record is stored yet. -/
def JarHotspot.init : JarHotspot :=
  { access_count := 0, last_access := 0, warmed := false, class_count := 0 }

/-- `WarmupRequest` from hotspot.rs. -/
structure WarmupRequest where
  priority : WarmupPriority
  mode : WarmupMode
deriving DecidableEq, Repr

namespace HotspotTracker

/-- `HotspotTracker::new` clamps the configured threshold with `.max(1)`. -/
def effThreshold (t : Nat) : Nat := max t 1

/-- `HotspotTracker::record_access` from hotspot.rs, acting on the record of
one artifact: increment `access_count` (u32 saturating add), set
`last_access := now`, and emit a request exactly as the source does.  The
updated record is stored unconditionally. -/
def record_access (threshold now : Nat) (h : JarHotspot) :
    Option WarmupRequest × JarHotspot :=
  let count := min (h.access_count + 1) u32Max
  let h2 : JarHotspot := { h with access_count := count, last_access := now }
  let request : Option WarmupRequest :=
    if h2.warmed then none
    else if threshold ≤ count then
      some { priority := .High, mode := .AllClasses }
    else if count = 1 then
      some { priority := .Normal, mode := .TopLevelOnly }
    else none
  (request, h2)

/-- `HotspotTracker::mark_warmed` from hotspot.rs acting on one record:
sets `warmed := true` and records the class count. -/
def mark_warmed (class_count : Nat) (h : JarHotspot) : JarHotspot :=
  { h with warmed := true, class_count := class_count }

/-- The record of one artifact after a sequence of `record_access` calls,
one per timestamp in `times`. -/
def runAccesses (threshold : Nat) (h : JarHotspot) (times : List Nat) : JarHotspot :=
  times.foldl (fun s now => (record_access threshold now s).2) h

/-- The requests emitted by a sequence of `record_access` calls, one per
timestamp in `times`. -/
def accessResults (threshold : Nat) (h : JarHotspot) :
    List Nat → List (Option WarmupRequest)
  | [] => []
  | now :: rest =>
    (record_access threshold now h).1 ::
      accessResults threshold (record_access threshold now h).2 rest

end HotspotTracker

/-- One filtered entry of `top_unwarmed_jars`: `(access_count, last_access,
jar_key)`, exactly the triple the source pushes into `entries`. -/
abbrev HotEntry : Type := Nat × Nat × String

/-- The comparator of `top_unwarmed_jars` read as a "less or equal" relation:
`b.0.cmp(&a.0).then_with(b.1.cmp(&a.1)).then_with(a.2.cmp(&b.2))` is not
`Greater`, i.e. descending access count, then descending last access, then
ascending jar key. -/
def hotLe (a b : HotEntry) : Prop :=
  b.1 < a.1 ∨ (a.1 = b.1 ∧ (b.2.1 < a.2.1 ∨ (a.2.1 = b.2.1 ∧ a.2.2 ≤ b.2.2)))

instance : DecidableRel hotLe := by
  intro a b
  unfold hotLe
  infer_instance

instance : IsTotal HotEntry hotLe := by
  constructor
  intro a b
  rcases Nat.lt_trichotomy a.1 b.1 with h | h | h
  · exact Or.inr (Or.inl h)
  · rcases Nat.lt_trichotomy a.2.1 b.2.1 with h2 | h2 | h2
    · exact Or.inr (Or.inr ⟨h.symm, Or.inl h2⟩)
    · rcases le_total a.2.2 b.2.2 with h3 | h3
      · exact Or.inl (Or.inr ⟨h, Or.inr ⟨h2, h3⟩⟩)
      · exact Or.inr (Or.inr ⟨h.symm, Or.inr ⟨h2.symm, h3⟩⟩)
    · exact Or.inl (Or.inr ⟨h, Or.inl h2⟩)
  · exact Or.inl (Or.inl h)

instance : IsTrans HotEntry hotLe := by
  constructor
  rintro a b c (hab | ⟨hab, hab2⟩) (hbc | ⟨hbc, hbc2⟩)
  · exact Or.inl (hbc.trans hab)
  · exact Or.inl (hbc ▸ hab)
  · exact Or.inl (hab ▸ hbc)
  · rcases hab2 with hab2 | ⟨hab2, hab3⟩ <;> rcases hbc2 with hbc2 | ⟨hbc2, hbc3⟩
    · exact Or.inr ⟨hab.trans hbc, Or.inl (hbc2.trans hab2)⟩
    · exact Or.inr ⟨hab.trans hbc, Or.inl (hbc2 ▸ hab2)⟩
    · exact Or.inr ⟨hab.trans hbc, Or.inl (hab2 ▸ hbc2)⟩
    · exact Or.inr ⟨hab.trans hbc, Or.inr ⟨hab2.trans hbc2, hab3.trans hbc3⟩⟩

namespace HotspotTracker

/-- The filtered triples of `top_unwarmed_jars`: one entry per table row,
skipping rows with `warmed` set or `access_count == 0`. -/
def hotEntries (table : List (String × JarHotspot)) : List HotEntry :=
  table.filterMap fun kv =>
    if kv.2.warmed ∨ kv.2.access_count = 0 then none
    else some (kv.2.access_count, kv.2.last_access, kv.1)

/-- The filtered triples sorted by the comparator of `top_unwarmed_jars`. -/
def topEntries (table : List (String × JarHotspot)) : List HotEntry :=
  List.insertionSort hotLe (hotEntries table)

/-- `HotspotTracker::top_unwarmed_jars` from hotspot.rs: on `top = 0` return
the empty list; otherwise filter the table, sort by descending access count,
then descending last access, then ascending jar key, truncate to `top`, and
keep only the jar keys. -/
def top_unwarmed_jars (table : List (String × JarHotspot)) (top : Nat) :
    List String :=
  if top = 0 then []
  else ((topEntries table).take top).map fun e => e.2.2

end HotspotTracker

/-! ## buffer.rs: the Write Buffer

The buffer is a producer thread plus one background flush thread connected
by an mpsc channel.  We model a system state holding the source-cache store
table, the channel contents (FIFO), the flush thread's local batch, the
atomic pending counter, and the gauge side-channel file (`none` = absent).
Producer and flusher steps are events; a schedule of the real system is a
trace of events. -/

/-- `PendingWrite` from buffer.rs. -/
structure PendingWrite where
  key : String
  source : String
deriving DecidableEq, Repr

/-- A store table: string keys to optional string values. -/
abbrev StoreTable : Type := String → Option String

/-- The empty table. -/
def emptyTable : StoreTable := fun _ => none

/-- One `table.put(key, value)`: overwrite the binding for the key. -/
def putWrite (s : StoreTable) (e : PendingWrite) : StoreTable :=
  fun k => if k = e.key then some e.source else s k

/-- `batch_write` from buffer.rs: put every entry of the batch, in order,
in one transaction. -/
def batch_write (s : StoreTable) (batch : List PendingWrite) : StoreTable :=
  batch.foldl putWrite s

/-- The state of a `WriteBuffer` together with its flush thread. -/
structure BufState where
  store : StoreTable
  chan : List PendingWrite
  batch : List PendingWrite
  pending : Nat
  gauge : Option Nat
  txAlive : Bool

/-- The state of a freshly constructed buffer over an empty store. -/
def initBuf : BufState :=
  { store := emptyTable, chan := [], batch := [], pending := 0,
    gauge := none, txAlive := true }

namespace WriteBuffer

/-- `WriteBuffer::enqueue` from buffer.rs: with the sender alive, increment
the pending counter, publish the gauge value 1 when the counter was 0, and
send the entry; after `shutdown_and_flush` took the sender, do nothing. -/
def enqueue (s : BufState) (e : PendingWrite) : BufState :=
  if s.txAlive then
    { s with
      pending := s.pending + 1,
      gauge := if s.pending = 0 then some 1 else s.gauge,
      chan := s.chan ++ [e] }
  else s

/-- One successful `rx.try_recv()` / `rx.recv_timeout(..) = Ok` in the flush
loop: move the oldest channel entry into the local batch. -/
def drainOne (s : BufState) : BufState :=
  match s.chan with
  | [] => s
  | e :: rest => { s with chan := rest, batch := s.batch ++ [e] }

/-- One flush of a non-empty batch: commit the batch to the store in one
transaction, subtract the drained count from the pending counter, publish
the new counter value to the gauge, and clear the batch. -/
def flushBatch (s : BufState) : BufState :=
  if s.batch = [] then s
  else
    { s with
      store := batch_write s.store s.batch,
      pending := s.pending - s.batch.length,
      gauge := some (s.pending - s.batch.length),
      batch := [] }

/-- `WriteBuffer::shutdown_and_flush` from buffer.rs: dropping the sender
disconnects the channel, the flush thread drains every remaining entry to
the store, subtracts them from the pending counter, writes gauge 0 and then
removes the gauge file, and exits; the join returns and the gauge file is
removed again (a no-op). -/
def shutdown_and_flush (s : BufState) : BufState :=
  { store := batch_write s.store (s.batch ++ s.chan),
    chan := [], batch := [],
    pending := s.pending - (s.batch.length + s.chan.length),
    gauge := none,
    txAlive := false }

end WriteBuffer

/-- An event of the buffer system: a producer enqueue, or one of the flush
thread's steps. -/
inductive BufEv where
  | enqueue (e : PendingWrite)
  | drainOne
  | flushBatch

/-- Apply one event to the buffer state. -/
def bufStep (s : BufState) : BufEv → BufState
  | .enqueue e => WriteBuffer.enqueue s e
  | .drainOne => WriteBuffer.drainOne s
  | .flushBatch => WriteBuffer.flushBatch s

/-- Run a trace of events from a state. -/
def runBuf (s : BufState) (tr : List BufEv) : BufState :=
  tr.foldl bufStep s

/-- The entries enqueued along a trace, in order. -/
def enqueuedOf (tr : List BufEv) : List PendingWrite :=
  tr.filterMap fun ev =>
    match ev with
    | .enqueue e => some e
    | _ => none

/-- The value of the most recent write for a key in a list of writes. -/
def lastWrite (l : List PendingWrite) (k : String) : Option String :=
  l.foldl (fun acc e => if e.key = k then some e.source else acc) none

/-! ## registry.rs: the Class Registry -/

/-- The class_registry table: class name to JSON-encoded artifact list,
modelled with the decoded list as the value. -/
abbrev RegistryTable : Type := String → Option (List String)

/-- The artifact_manifest table: artifact key to sentinel value. -/
abbrev ManifestTable : Type := String → Option String

/-- Overwrite one binding of the registry table. -/
def putReg (t : RegistryTable) (k : String) (v : List String) : RegistryTable :=
  fun x => if x = k then some v else t x

/-- Overwrite one binding of the manifest table. -/
def putManifest (t : ManifestTable) (k : String) (v : String) : ManifestTable :=
  fun x => if x = k then some v else t x

/-- The persisted state owned by `ClassRegistry`. -/
structure RegState where
  class_registry : RegistryTable
  artifact_manifest : ManifestTable

namespace ClassRegistry

/-- The per-class loop of `update_registry_and_mark_cataloged`: for each
class read its current artifact list (missing or unparsable means empty),
append the artifact key when absent, write back only when changed, and
count only truly new associations.  Reads within the transaction see the
writes made earlier in the same transaction, so the table is threaded. -/
def updateClasses (jar : String) (reg : RegistryTable) :
    List String → RegistryTable × Nat
  | [] => (reg, 0)
  | cls :: rest =>
    let paths := (reg cls).getD []
    if jar ∈ paths then updateClasses jar reg rest
    else
      let next := updateClasses jar (putReg reg cls (paths ++ [jar])) rest
      (next.1, next.2 + 1)

/-- `ClassRegistry::update_registry_and_mark_cataloged` from registry.rs:
run the per-class loop, then unconditionally set the catalog marker for the
artifact, all in one transaction; return the count of new associations. -/
def update_registry_and_mark_cataloged (s : RegState) (jar : String)
    (classes : List String) : RegState × Nat :=
  let upd := updateClasses jar s.class_registry classes
  ({ class_registry := upd.1,
     artifact_manifest := putManifest s.artifact_manifest jar "1" },
   upd.2)

end ClassRegistry

/-! ## incremental.rs: the Incremental Indexer -/

/-- The jar_mtime table: artifact key to last observed mtime in nanoseconds,
stored as a decimal string and modelled with the decoded number. -/
abbrev MtimeTable : Type := String → Option Nat

/-- Overwrite one binding of the mtime table. -/
def putMtime (t : MtimeTable) (k : String) (v : Nat) : MtimeTable :=
  fun x => if x = k then some v else t x

namespace IncrementalIndexer

/-- The per-artifact loop of `scan_changes`, over the discovered artifacts
paired with their current mtime in nanoseconds: clamp the mtime to u64,
read the stored record (missing or unparsable means 0), report the artifact
as changed when the stored value is strictly below the current one, and
unconditionally insert the current value.  Returns the changed keys in scan
order and the updated table. -/
def scanFold (table : MtimeTable) :
    List (String × Nat) → List String × MtimeTable
  | [] => ([], table)
  | (key, mtime) :: rest =>
    let nanos := min mtime u64Max
    let old := (table key).getD 0
    let next := scanFold (putMtime table key nanos) rest
    (if old < nanos then key :: next.1 else next.1, next.2)

/-- `IncrementalIndexer::scan_changes` from incremental.rs: one write
transaction over all discovered artifacts; returns the total scanned count,
the changed artifacts, and the committed table. -/
def scan_changes (table : MtimeTable) (jars : List (String × Nat)) :
    (Nat × List String) × MtimeTable :=
  let f := scanFold table jars
  ((jars.length, f.1), f.2)

end IncrementalIndexer

/-! ## warmup.rs: the Warmer

The scheduling loop runs on a single thread: it receives submitted tasks
into a binary max-heap, pops the greatest task whenever a worker slot is
free, discards it when its artifact is already in flight, and otherwise
inserts the artifact into the in-flight set and hands the task to the pool.
A finished worker decrements the running counter and reports its artifact
on the done channel; the scheduler removes it from the in-flight set when
it reads that report.  We model the heap as the list of queued tasks with a
pop-maximum function, and the interleaving of scheduler and workers as a
trace of events. -/

/-- `QueuedTask` from warmup.rs, keeping the fields its `Ord` and the
scheduler inspect: the priority, the submission sequence number, and the
jar path of the wrapped task. -/
structure QueuedTask where
  priority : WarmupPriority
  seq : Nat
  jar : String
deriving DecidableEq, Repr

/-- `QueuedTask::cmp` from warmup.rs: priority first, then the sequence
numbers compared in reverse, so among equal priorities the smaller sequence
number is the greater task. -/
def QueuedTask.cmp (a b : QueuedTask) : Ordering :=
  (compare a.priority.toNat b.priority.toNat).then (compare b.seq a.seq)

/-- `BinaryHeap::pop`: remove and return a greatest element of the heap.
On the empty heap, `none`; otherwise the returned element compares not
below every element of the heap. -/
def popMax : List QueuedTask → Option (QueuedTask × List QueuedTask)
  | [] => none
  | x :: xs =>
    match popMax xs with
    | none => some (x, [])
    | some (m, rest) =>
      if QueuedTask.cmp x m = .lt then some (m, x :: rest)
      else some (x, m :: rest)

/-- The scheduler-visible state of the Warmer: the heap, the in-flight set,
the multiset of artifacts with a running worker, the done channel, and the
submission counter. -/
structure WarmerState where
  queue : List QueuedTask
  inFlight : List String
  running : List String
  doneChan : List String
  nextSeq : Nat
deriving DecidableEq, Repr

/-- A fresh scheduler state. -/
def initWarmer : WarmerState :=
  { queue := [], inFlight := [], running := [], doneChan := [], nextSeq := 0 }

/-- An event of the Warmer system: a submission received by the scheduler,
one pop-and-dispatch step, a worker finishing a task for an artifact, or
the scheduler reaping one done report. -/
inductive WarmEv where
  | submit (p : WarmupPriority) (jar : String)
  | dispatch
  | complete (jar : String)
  | reapDone

/-- Apply one event to the Warmer state.  `submit` pushes the task with the
next sequence number from the monotonically increasing counter.  `dispatch`
fires only while the running count is below the concurrency bound
(`max_concurrent.max(1)`): it pops the greatest task; a task whose artifact
is already in flight is discarded, otherwise the artifact enters the
in-flight set and the running pool.  `complete` moves a running artifact to
the done channel.  `reapDone` removes one reported artifact from the
in-flight set. -/
def warmStep (maxConc : Nat) (s : WarmerState) : WarmEv → WarmerState
  | .submit p jar =>
    { s with
      queue := s.queue ++ [{ priority := p, seq := s.nextSeq, jar := jar }],
      nextSeq := s.nextSeq + 1 }
  | .dispatch =>
    if s.running.length < max maxConc 1 then
      match popMax s.queue with
      | none => s
      | some (t, rest) =>
        if t.jar ∈ s.inFlight then { s with queue := rest }
        else
          { s with
            queue := rest,
            inFlight := t.jar :: s.inFlight,
            running := t.jar :: s.running }
    else s
  | .complete jar =>
    if jar ∈ s.running then
      { s with running := s.running.erase jar, doneChan := s.doneChan ++ [jar] }
    else s
  | .reapDone =>
    match s.doneChan with
    | [] => s
    | d :: rest => { s with doneChan := rest, inFlight := s.inFlight.erase d }

/-- Run a trace of Warmer events from the fresh state. -/
def runWarmer (maxConc : Nat) (tr : List WarmEv) : WarmerState :=
  tr.foldl (warmStep maxConc) initWarmer

/-! ## warmup.rs: one warmup task -/

/-- `ParsedClass` from parse.rs, keeping the fields `warmup_jar` reads: the
fully qualified class name and the decompiled source text. -/
structure ParsedClass where
  class_name : String
  content : String
deriving DecidableEq, Repr

/-- `str::contains(char)` over the character sequence of a string. -/
def strContainsChar (s : String) (c : Char) : Bool := s.data.contains c

/-- `str::ends_with(pattern)` over the character sequences. -/
def strEndsWith (s pat : String) : Bool := pat.data.isSuffixOf s.data

/-- The filter of the enqueue loop in `warmup_jar`: a class is written only
when it is not in the exclude set, is not a nested class under
`TopLevelOnly` mode (name contains the nesting separator), and is not a
`package-info` or `module-info` pseudo-class. -/
def warmupemit (mode : WarmupMode) (exclude : List String)
    (cls : ParsedClass) : Bool :=
  if cls.class_name ∈ exclude then false
  else if mode = WarmupMode.TopLevelOnly ∧
      strContainsChar cls.class_name '$' then false
  else if strEndsWith cls.class_name "package-info" ∨
      strEndsWith cls.class_name "module-info" then false
  else true

/-- `warmup_jar` from warmup.rs, given the classes parsed from the
decompiler output: report the parsed class count, taken before the filters,
and enqueue one `PendingWrite` per class surviving the filters, keyed
`{class_name}::{jar_key}`. -/
def warmup_jar (jarKey : String) (mode : WarmupMode) (exclude : List String)
    (classes : List ParsedClass) : Nat × List PendingWrite :=
  (classes.length,
   (classes.filter (warmupemit mode exclude)).map fun cls =>
     { key := cls.class_name ++ "::" ++ jarKey, source := cls.content })

/-- The class count the worker reports to `mark_warmed`: the source casts
the usize count with `as u32`, truncating modulo 2^32. -/
def reportedClassCount (n : Nat) : Nat := n % 2 ^ 32

/-! ## warmup.rs + buffer.rs + hotspot.rs: the completion path of a task

The composite state a worker touches when a task succeeds: the buffer
system and the jar_hotspot table. -/

/-- The buffer system together with the jar_hotspot table. -/
structure WarmSysState where
  buf : BufState
  hotspot : String → Option JarHotspot

/-- A fresh composite state over empty tables. -/
def initWarmSys : WarmSysState :=
  { buf := initBuf, hotspot := fun _ => none }

/-- `HotspotTracker::mark_warmed` against the table: read the record
(default when missing), set `warmed := true` and the class count, and store
it back. -/
def sysMarkWarmed (s : WarmSysState) (jar : String) (cc : Nat) : WarmSysState :=
  { s with
    hotspot := fun k =>
      if k = jar then
        some (HotspotTracker.mark_warmed cc ((s.hotspot jar).getD JarHotspot.init))
      else s.hotspot k }

/-- The worker body of `spawn_warmer` on a task whose decompilation
succeeds: `warmup_jar` enqueues the surviving records into the Write
Buffer, and immediately afterwards the worker calls `mark_warmed` with the
reported class count.  No flush of the buffer happens in between. -/
def workerComplete (jarKey : String) (mode : WarmupMode)
    (exclude : List String) (classes : List ParsedClass)
    (s : WarmSysState) : WarmSysState :=
  let out := warmup_jar jarKey mode exclude classes
  let buf2 := out.2.foldl WriteBuffer.enqueue s.buf
  sysMarkWarmed { s with buf := buf2 } jarKey (reportedClassCount out.1)

/-! ## Theorems -/

theorem RegState.ext {a b : RegState}
    (h1 : a.class_registry = b.class_registry)
    (h2 : a.artifact_manifest = b.artifact_manifest) : a = b := by
  cases a; cases b; simp_all

namespace HotspotTracker

theorem record_access_of_warmed (threshold now : Nat) (h : JarHotspot)
    (hw : h.warmed = true) :
    (record_access threshold now h).1 = none ∧
      (record_access threshold now h).2.warmed = true := by
  simp [record_access, hw]

theorem accessResults_of_warmed (threshold : Nat) (h : JarHotspot)
    (hw : h.warmed = true) (times : List Nat) :
    accessResults threshold h times = times.map fun _ => none := by
  induction times generalizing h with
  | nil => rfl
  | cons now rest ih =>
    obtain ⟨h1, h2⟩ := record_access_of_warmed threshold now h hw
    simp [accessResults, h1, ih _ h2]

theorem runAccesses_spec (threshold : Nat) (times : List Nat) (h : JarHotspot)
    (hw : h.warmed = false) (hc : h.access_count ≤ u32Max) :
    (runAccesses threshold h times).warmed = false ∧
      (runAccesses threshold h times).access_count =
        min (h.access_count + times.length) u32Max := by
  induction times generalizing h with
  | nil =>
    refine ⟨hw, ?_⟩
    simp only [runAccesses, List.foldl_nil, List.length_nil]
    omega
  | cons now rest ih =>
    have step : runAccesses threshold h (now :: rest) =
        runAccesses threshold (record_access threshold now h).2 rest := rfl
    have hw2 : (record_access threshold now h).2.warmed = false := by
      simp [record_access, hw]
    have hc2 : (record_access threshold now h).2.access_count =
        min (h.access_count + 1) u32Max := by
      simp [record_access]
    obtain ⟨ih1, ih2⟩ := ih _ hw2 (by rw [hc2]; omega)
    refine ⟨step ▸ ih1, ?_⟩
    rw [step, ih2, hc2]
    simp only [List.length_cons]
    omega

end HotspotTracker

/-- C3: for every artifact and every sequence of record_access calls, while
warmed is false the first access returns a Normal, top-level-only request
when the incremented access count is below the effective warmup threshold;
any access whose incremented count reaches the threshold returns a High,
all-classes request; the High case takes precedence when both conditions
hold (effective threshold 1); accesses whose count lies strictly between 1
and the threshold return none; the access count after n accesses is n
(saturating at u32::MAX) with warmed still false; and after mark_warmed
every subsequent record_access returns none. -/
theorem claim_C3 :
    (∀ t now, 1 < HotspotTracker.effThreshold t →
      (HotspotTracker.record_access (HotspotTracker.effThreshold t) now
          JarHotspot.init).1 =
        some { priority := .Normal, mode := .TopLevelOnly })
    ∧ (∀ t now h, h.warmed = false →
      HotspotTracker.effThreshold t ≤ min (h.access_count + 1) u32Max →
      (HotspotTracker.record_access (HotspotTracker.effThreshold t) now h).1 =
        some { priority := .High, mode := .AllClasses })
    ∧ (∀ t now, HotspotTracker.effThreshold t ≤ 1 →
      (HotspotTracker.record_access (HotspotTracker.effThreshold t) now
          JarHotspot.init).1 =
        some { priority := .High, mode := .AllClasses })
    ∧ (∀ t now h, h.warmed = false →
      1 < min (h.access_count + 1) u32Max →
      min (h.access_count + 1) u32Max < HotspotTracker.effThreshold t →
      (HotspotTracker.record_access (HotspotTracker.effThreshold t) now h).1 =
        none)
    ∧ (∀ t times,
      (HotspotTracker.runAccesses (HotspotTracker.effThreshold t)
          JarHotspot.init times).warmed = false ∧
      (HotspotTracker.runAccesses (HotspotTracker.effThreshold t)
          JarHotspot.init times).access_count = min times.length u32Max)
    ∧ (∀ t cc h times,
      HotspotTracker.accessResults (HotspotTracker.effThreshold t)
          (HotspotTracker.mark_warmed cc h) times =
        times.map fun _ => none) := by
  have hmax : 1 ≤ u32Max := by decide
  refine ⟨?_, ?_, ?_, ?_, ?_, ?_⟩
  · intro t now hlt
    have h1 : min (0 + 1) u32Max = 1 := by omega
    simp only [HotspotTracker.record_access, JarHotspot.init]
    simp only [h1]
    simp [Nat.not_le.mpr hlt, hlt]
  · intro t now h hw hth
    simp [HotspotTracker.record_access, hw, hth]
  · intro t now hle
    have h1 : min (0 + 1) u32Max = 1 := by omega
    simp only [HotspotTracker.record_access, JarHotspot.init]
    simp only [h1]
    simp [hle]
  · intro t now h hw h1 h2
    simp [HotspotTracker.record_access, hw, Nat.not_le.mpr h2, Nat.ne_of_gt h1]
  · intro t times
    have := HotspotTracker.runAccesses_spec (HotspotTracker.effThreshold t)
      times JarHotspot.init rfl (Nat.zero_le _)
    simpa [JarHotspot.init] using this
  · intro t cc h times
    exact HotspotTracker.accessResults_of_warmed _ _ rfl times

/-- Witness for C3 at concrete inputs: threshold 2 with a first access,
a second access reaching the threshold, threshold 1 taking the High branch
on the first access, threshold 5 on a second access returning none, a run
of three accesses, and two accesses after mark_warmed. -/
theorem claim_C3_witness :
    (HotspotTracker.record_access (HotspotTracker.effThreshold 2) 10
        JarHotspot.init).1 =
      some { priority := .Normal, mode := .TopLevelOnly } ∧
    (HotspotTracker.record_access (HotspotTracker.effThreshold 2) 11
        { access_count := 1, last_access := 10, warmed := false,
          class_count := 0 }).1 =
      some { priority := .High, mode := .AllClasses } ∧
    (HotspotTracker.record_access (HotspotTracker.effThreshold 1) 10
        JarHotspot.init).1 =
      some { priority := .High, mode := .AllClasses } ∧
    (HotspotTracker.record_access (HotspotTracker.effThreshold 5) 12
        { access_count := 1, last_access := 10, warmed := false,
          class_count := 0 }).1 = none ∧
    (HotspotTracker.runAccesses (HotspotTracker.effThreshold 2)
        JarHotspot.init [4, 5, 6]).access_count = min 3 u32Max ∧
    HotspotTracker.accessResults (HotspotTracker.effThreshold 2)
        (HotspotTracker.mark_warmed 7
          { access_count := 2, last_access := 5, warmed := false,
            class_count := 0 }) [6, 7] = [6, 7].map fun _ => none :=
  ⟨claim_C3.1 2 10 (by decide),
   claim_C3.2.1 2 11 _ rfl (by decide),
   claim_C3.2.2.1 1 10 (by decide),
   claim_C3.2.2.2.1 5 12 _ rfl (by decide) (by decide),
   (claim_C3.2.2.2.2.1 2 [4, 5, 6]).2,
   claim_C3.2.2.2.2.2 2 7 _ [6, 7]⟩

/-- C7: for every hotspot-table state and every n, top_unwarmed_jars n
returns at most n artifact paths, every returned path belongs to a table
row with warmed = false and access_count > 0, and the returned list is the
key projection of the filtered triples sorted by descending access count,
then descending last access, then ascending artifact path, truncated to n,
that sorted truncation being sorted under that very order. -/
theorem claim_C7 (table : List (String × JarHotspot)) (top : Nat) :
    (HotspotTracker.top_unwarmed_jars table top).length ≤ top
    ∧ (∀ p ∈ HotspotTracker.top_unwarmed_jars table top,
        ∃ h : JarHotspot,
          (p, h) ∈ table ∧ h.warmed = false ∧ 0 < h.access_count)
    ∧ HotspotTracker.top_unwarmed_jars table top =
        ((HotspotTracker.topEntries table).take top).map (fun e => e.2.2)
    ∧ List.Sorted hotLe ((HotspotTracker.topEntries table).take top) := by
  have heq : HotspotTracker.top_unwarmed_jars table top =
      ((HotspotTracker.topEntries table).take top).map (fun e => e.2.2) := by
    by_cases h0 : top = 0
    · simp [HotspotTracker.top_unwarmed_jars, h0]
    · simp [HotspotTracker.top_unwarmed_jars, h0]
  refine ⟨?_, ?_, heq, ?_⟩
  · rw [heq, List.length_map, List.length_take]
    omega
  · intro p hp
    rw [heq] at hp
    obtain ⟨e, he, hpe⟩ := List.mem_map.mp hp
    have he2 : e ∈ HotspotTracker.topEntries table :=
      (List.take_sublist top _).mem he
    have he3 : e ∈ HotspotTracker.hotEntries table :=
      ((List.perm_insertionSort hotLe _).mem_iff).mp he2
    obtain ⟨kv, hkv, hf⟩ := List.mem_filterMap.mp he3
    by_cases hc : kv.2.warmed ∨ kv.2.access_count = 0
    · simp [HotspotTracker.hotEntries, hc] at hf
    · simp only [HotspotTracker.hotEntries, if_neg hc] at hf
      push_neg at hc
      have hf2 : (kv.2.access_count, kv.2.last_access, kv.1) = e :=
        Option.some.inj hf
      refine ⟨kv.2, ?_, by simpa using hc.1, by omega⟩
      have hkp : kv.1 = p := by rw [← hpe, ← hf2]
      rw [← hkp]
      simpa using hkv
  · exact List.Pairwise.sublist (List.take_sublist top _)
      (List.sorted_insertionSort hotLe _)

/-- Witness for C7: a concrete three-row table with one warmed row; the
returned path "a" indeed comes from an unwarmed row with positive access
count. -/
theorem claim_C7_witness :
    ∃ h : JarHotspot,
      ("a", h) ∈ ([("a", ⟨2, 5, false, 0⟩), ("b", ⟨1, 3, true, 0⟩),
          ("c", ⟨1, 9, false, 1⟩)] : List (String × JarHotspot)) ∧
        h.warmed = false ∧ 0 < h.access_count :=
  (claim_C7 [("a", ⟨2, 5, false, 0⟩), ("b", ⟨1, 3, true, 0⟩),
    ("c", ⟨1, 9, false, 1⟩)] 2).2.1 "a" (by decide)

theorem runBuf_preserve (P : BufState → Prop)
    (hstep : ∀ s ev, P s → P (bufStep s ev)) :
    ∀ (tr : List BufEv) (s : BufState), P s → P (runBuf s tr) := by
  intro tr
  induction tr with
  | nil => intro s hs; exact hs
  | cons ev rest ih =>
    intro s hs
    exact ih _ (hstep s ev hs)

theorem bufStep_pending (s : BufState) (ev : BufEv)
    (h : s.pending = s.chan.length + s.batch.length) :
    (bufStep s ev).pending =
      (bufStep s ev).chan.length + (bufStep s ev).batch.length := by
  cases ev with
  | enqueue e =>
    simp only [bufStep, WriteBuffer.enqueue]
    by_cases ht : s.txAlive
    · simp only [ht, if_true]
      simp [h]
      omega
    · simp only [ht, if_false]
      exact h
  | drainOne =>
    simp only [bufStep, WriteBuffer.drainOne]
    cases hc : s.chan with
    | nil => exact h
    | cons c rest => simp_all; omega
  | flushBatch =>
    simp only [bufStep, WriteBuffer.flushBatch]
    by_cases hb : s.batch = [] <;> simp [hb, h]

/-- C9: for every trace of producer enqueues and flush-thread steps, the
pending counter of the Write Buffer equals the number of entries that have
been enqueued but not yet flushed to the Store, namely those still in the
channel plus those drained into the unflushed batch; reading the counter is
a pure projection of the state, involving no flush-thread step. -/
theorem claim_C9 (tr : List BufEv) :
    (runBuf initBuf tr).pending =
      (runBuf initBuf tr).chan.length + (runBuf initBuf tr).batch.length :=
  runBuf_preserve
    (fun s => s.pending = s.chan.length + s.batch.length)
    bufStep_pending tr initBuf rfl

theorem batch_write_append (s : StoreTable) (l1 l2 : List PendingWrite) :
    batch_write s (l1 ++ l2) = batch_write (batch_write s l1) l2 :=
  List.foldl_append _ _ _ _

theorem runBuf_txAlive (tr : List BufEv) (s : BufState) :
    (runBuf s tr).txAlive = s.txAlive := by
  induction tr generalizing s with
  | nil => rfl
  | cons ev rest ih =>
    have : (bufStep s ev).txAlive = s.txAlive := by
      cases ev with
      | enqueue e =>
        simp only [bufStep, WriteBuffer.enqueue]
        by_cases ht : s.txAlive <;> simp [ht]
      | drainOne =>
        simp only [bufStep, WriteBuffer.drainOne]
        cases s.chan <;> rfl
      | flushBatch =>
        simp only [bufStep, WriteBuffer.flushBatch]
        by_cases hb : s.batch = [] <;> simp [hb]
    rw [runBuf, List.foldl_cons, ← runBuf, ih, this]

theorem runBuf_store (tr : List BufEv) (s : BufState) (ht : s.txAlive = true) :
    batch_write (runBuf s tr).store
        ((runBuf s tr).batch ++ (runBuf s tr).chan) =
      batch_write (batch_write s.store (s.batch ++ s.chan)) (enqueuedOf tr) := by
  induction tr generalizing s with
  | nil => rfl
  | cons ev rest ih =>
    have hstep : runBuf s (ev :: rest) = runBuf (bufStep s ev) rest := rfl
    have ht2 : (bufStep s ev).txAlive = true := by
      have := runBuf_txAlive [ev] s
      simpa [runBuf] using this.trans ht
    rw [hstep, ih _ ht2]
    cases ev with
    | enqueue e =>
      have he : enqueuedOf (BufEv.enqueue e :: rest) =
          e :: enqueuedOf rest := rfl
      rw [he]
      simp only [bufStep, WriteBuffer.enqueue, ht, if_true]
      have : (s.batch ++ (s.chan ++ [e])) = (s.batch ++ s.chan) ++ [e] := by
        simp
      rw [this, batch_write_append]
      rfl
    | drainOne =>
      have he : enqueuedOf (BufEv.drainOne :: rest) = enqueuedOf rest := rfl
      rw [he]
      simp only [bufStep, WriteBuffer.drainOne]
      cases hc : s.chan with
      | nil => simp [hc]
      | cons c crest => simp [hc]
    | flushBatch =>
      have he : enqueuedOf (BufEv.flushBatch :: rest) = enqueuedOf rest := rfl
      rw [he]
      simp only [bufStep, WriteBuffer.flushBatch]
      by_cases hb : s.batch = []
      · simp [hb]
      · simp only [hb, if_false, List.nil_append]
        rw [batch_write_append]

theorem lastWrite_foldl (k : String) (l : List PendingWrite)
    (acc : Option String) :
    l.foldl (fun a e => if e.key = k then some e.source else a) acc =
      match lastWrite l k with
      | some v => some v
      | none => acc := by
  induction l generalizing acc with
  | nil => rfl
  | cons e rest ih =>
    simp only [lastWrite, List.foldl_cons] at ih ⊢
    rw [ih, ih (if e.key = k then some e.source else none)]
    cases h : List.foldl
        (fun a e => if e.key = k then some e.source else a) none rest with
    | some v => rfl
    | none => by_cases he : e.key = k <;> simp [he]

theorem lastWrite_cons (k : String) (e : PendingWrite)
    (rest : List PendingWrite) :
    lastWrite (e :: rest) k =
      match lastWrite rest k with
      | some v => some v
      | none => if e.key = k then some e.source else none := by
  simp only [lastWrite, List.foldl_cons]
  rw [lastWrite_foldl]
  rfl

theorem batch_write_lookup (t : StoreTable) (l : List PendingWrite)
    (k : String) :
    batch_write t l k =
      match lastWrite l k with
      | some v => some v
      | none => t k := by
  induction l generalizing t with
  | nil => rfl
  | cons e rest ih =>
    simp only [batch_write, List.foldl_cons] at ih ⊢
    rw [ih (putWrite t e), lastWrite_cons]
    cases h : lastWrite rest k with
    | some v => rfl
    | none =>
      by_cases he : e.key = k
      · simp [putWrite, he]
      · have hk : ¬(k = e.key) := fun h2 => he h2.symm
        simp [putWrite, he, hk]

theorem lastWrite_isSome (l : List PendingWrite) (e : PendingWrite)
    (he : e ∈ l) : (lastWrite l e.key).isSome = true := by
  induction l with
  | nil => cases he
  | cons a rest ih =>
    rw [lastWrite_cons]
    rcases List.mem_cons.mp he with rfl | hm
    · cases h : lastWrite rest e.key <;> simp
    · have := ih hm
      cases h : lastWrite rest e.key <;> simp_all

theorem pending_eq_unflushed (tr : List BufEv) :
    (runBuf initBuf tr).pending =
      (runBuf initBuf tr).chan.length + (runBuf initBuf tr).batch.length :=
  runBuf_preserve
    (fun s => s.pending = s.chan.length + s.batch.length)
    bufStep_pending tr initBuf rfl

/-- C1 amended: for every trace of enqueues interleaved with flush-thread
steps, after shutdown_and_flush every enqueued key is readable from the
source-cache table and holds the value of the most recent enqueue for that
key, the pending counter is 0, and the gauge side-channel file has been
removed. -/
theorem claim_C1 (tr : List BufEv) :
    (∀ e ∈ enqueuedOf tr,
      (WriteBuffer.shutdown_and_flush (runBuf initBuf tr)).store e.key =
          lastWrite (enqueuedOf tr) e.key ∧
        ((WriteBuffer.shutdown_and_flush
            (runBuf initBuf tr)).store e.key).isSome = true)
    ∧ (WriteBuffer.shutdown_and_flush (runBuf initBuf tr)).pending = 0
    ∧ (WriteBuffer.shutdown_and_flush (runBuf initBuf tr)).gauge = none := by
  have hstore : (WriteBuffer.shutdown_and_flush (runBuf initBuf tr)).store =
      batch_write emptyTable (enqueuedOf tr) := by
    have h := runBuf_store tr initBuf rfl
    simpa [WriteBuffer.shutdown_and_flush, initBuf, batch_write] using h
  refine ⟨?_, ?_, rfl⟩
  · intro e he
    have hl : (lastWrite (enqueuedOf tr) e.key).isSome = true :=
      lastWrite_isSome _ e he
    rw [hstore, batch_write_lookup]
    cases h : lastWrite (enqueuedOf tr) e.key with
    | some v => exact ⟨rfl, rfl⟩
    | none => rw [h] at hl; cases hl
  · have hp := pending_eq_unflushed tr
    simp only [WriteBuffer.shutdown_and_flush]
    omega

/-- Witness for C1 at a concrete trace: one enqueue of ("k", "v") and one
flusher drain step; after shutdown the key "k" is readable with the last
written value, the counter is 0 and the gauge is gone. -/
theorem claim_C1_witness :
    ((WriteBuffer.shutdown_and_flush (runBuf initBuf
          [BufEv.enqueue ⟨"k", "v"⟩, BufEv.drainOne])).store "k" =
        lastWrite (enqueuedOf [BufEv.enqueue ⟨"k", "v"⟩, BufEv.drainOne]) "k" ∧
      ((WriteBuffer.shutdown_and_flush (runBuf initBuf
          [BufEv.enqueue ⟨"k", "v"⟩, BufEv.drainOne])).store "k").isSome = true)
    ∧ (WriteBuffer.shutdown_and_flush (runBuf initBuf
        [BufEv.enqueue ⟨"k", "v"⟩, BufEv.drainOne])).pending = 0
    ∧ (WriteBuffer.shutdown_and_flush (runBuf initBuf
        [BufEv.enqueue ⟨"k", "v"⟩, BufEv.drainOne])).gauge = none :=
  ⟨(claim_C1 [BufEv.enqueue ⟨"k", "v"⟩, BufEv.drainOne]).1
      ⟨"k", "v"⟩ (by decide),
    (claim_C1 [BufEv.enqueue ⟨"k", "v"⟩, BufEv.drainOne]).2.1,
    (claim_C1 [BufEv.enqueue ⟨"k", "v"⟩, BufEv.drainOne]).2.2⟩

/-- Counterexample to C1 as stated: enqueue ("k", "a") then ("k", "b") and
shut down; the pair ("k", "a") was enqueued but is not readable afterward,
because the later enqueue for the same key overwrote it. -/
theorem claim_C1_counterexample :
    (⟨"k", "a"⟩ : PendingWrite) ∈
        enqueuedOf [BufEv.enqueue ⟨"k", "a"⟩, BufEv.enqueue ⟨"k", "b"⟩]
    ∧ (WriteBuffer.shutdown_and_flush (runBuf initBuf
        [BufEv.enqueue ⟨"k", "a"⟩, BufEv.enqueue ⟨"k", "b"⟩])).store "k" =
      some "b"
    ∧ ¬((WriteBuffer.shutdown_and_flush (runBuf initBuf
        [BufEv.enqueue ⟨"k", "a"⟩, BufEv.enqueue ⟨"k", "b"⟩])).store "k" =
      some "a") := by
  refine ⟨by decide, by decide, by decide⟩

namespace ClassRegistry

theorem updateClasses_stable (jar : String) (cs : List String)
    (reg : RegistryTable) (k : String) (hk : jar ∈ (reg k).getD []) :
    (updateClasses jar reg cs).1 k = reg k := by
  induction cs generalizing reg with
  | nil => rfl
  | cons cls rest ih =>
    by_cases hm : jar ∈ (reg cls).getD []
    · simp only [updateClasses, if_pos hm]
      exact ih reg hk
    · simp only [updateClasses, if_neg hm]
      have hne : k ≠ cls := fun h => hm (h ▸ hk)
      have hk2 : jar ∈ ((putReg reg cls ((reg cls).getD [] ++ [jar]) k).getD []) := by
        simp only [putReg, if_neg hne]
        exact hk
      rw [ih _ hk2]
      simp [putReg, hne]

theorem updateClasses_mem (jar : String) (cs : List String)
    (reg : RegistryTable) (c : String) (hc : c ∈ cs) :
    jar ∈ ((updateClasses jar reg cs).1 c).getD [] := by
  induction cs generalizing reg with
  | nil => cases hc
  | cons cls rest ih =>
    by_cases hm : jar ∈ (reg cls).getD []
    · simp only [updateClasses, if_pos hm]
      rcases List.mem_cons.mp hc with rfl | hr
      · rw [updateClasses_stable jar rest reg c hm]
        exact hm
      · exact ih _ hr
    · simp only [updateClasses, if_neg hm]
      rcases List.mem_cons.mp hc with rfl | hr
      · have hk2 : jar ∈ ((putReg reg c ((reg c).getD [] ++ [jar]) c).getD []) := by
          simp [putReg]
        rw [updateClasses_stable jar rest _ c hk2]
        exact hk2
      · exact ih _ hr

theorem updateClasses_noop (jar : String) (cs : List String)
    (reg : RegistryTable) (h : ∀ c ∈ cs, jar ∈ (reg c).getD []) :
    updateClasses jar reg cs = (reg, 0) := by
  induction cs with
  | nil => rfl
  | cons cls rest ih =>
    have hm : jar ∈ (reg cls).getD [] := h cls (List.mem_cons_self _ _)
    simp only [updateClasses, if_pos hm]
    exact ih fun c hc => h c (List.mem_cons_of_mem _ hc)

theorem updateClasses_entry (jar : String) (cs : List String)
    (reg : RegistryTable) (k : String) :
    (updateClasses jar reg cs).1 k = reg k ∨
      ((updateClasses jar reg cs).1 k = some ((reg k).getD [] ++ [jar]) ∧
        jar ∉ (reg k).getD []) := by
  induction cs generalizing reg with
  | nil => exact Or.inl rfl
  | cons cls rest ih =>
    by_cases hm : jar ∈ (reg cls).getD []
    · simp only [updateClasses, if_pos hm]
      exact ih reg
    · simp only [updateClasses, if_neg hm]
      rcases ih (putReg reg cls ((reg cls).getD [] ++ [jar])) with h1 | ⟨h1, h2⟩
      · by_cases hk : k = cls
        · subst hk
          refine Or.inr ⟨?_, hm⟩
          rw [h1]
          simp [putReg]
        · refine Or.inl ?_
          rw [h1]
          simp [putReg, hk]
      · by_cases hk : k = cls
        · subst hk
          exfalso
          apply h2
          simp [putReg]
        · refine Or.inr ⟨?_, ?_⟩
          · rw [h1]
            simp [putReg, hk]
          · simpa [putReg, hk] using h2

end ClassRegistry

/-- C4: update_registry_and_mark_cataloged is idempotent: a second call
with the same artifact and class list leaves the registry and the catalog
marker unchanged and reports updated_count 0; and a single call changes
each RegistryEntry either not at all or by appending the artifact to the
end of a list that did not contain it, so duplicate-free lists stay
duplicate-free and first-seen order is preserved. -/
theorem claim_C4 (s : RegState) (jar : String) (classes : List String) :
    (ClassRegistry.update_registry_and_mark_cataloged
        (ClassRegistry.update_registry_and_mark_cataloged s jar classes).1
        jar classes).1 =
      (ClassRegistry.update_registry_and_mark_cataloged s jar classes).1
    ∧ (ClassRegistry.update_registry_and_mark_cataloged
        (ClassRegistry.update_registry_and_mark_cataloged s jar classes).1
        jar classes).2 = 0
    ∧ (∀ k,
        (ClassRegistry.update_registry_and_mark_cataloged s jar
            classes).1.class_registry k = s.class_registry k ∨
        ((ClassRegistry.update_registry_and_mark_cataloged s jar
            classes).1.class_registry k =
          some ((s.class_registry k).getD [] ++ [jar]) ∧
          jar ∉ (s.class_registry k).getD []))
    ∧ (∀ k, ((s.class_registry k).getD []).Nodup →
        (((ClassRegistry.update_registry_and_mark_cataloged s jar
            classes).1.class_registry k).getD []).Nodup) := by
  have hmem : ∀ c ∈ classes,
      jar ∈ ((ClassRegistry.updateClasses jar s.class_registry classes).1
        c).getD [] :=
    fun c hc => ClassRegistry.updateClasses_mem jar classes s.class_registry c hc
  have hnoop := ClassRegistry.updateClasses_noop jar classes
    (ClassRegistry.updateClasses jar s.class_registry classes).1 hmem
  refine ⟨?_, ?_, ?_, ?_⟩
  · apply RegState.ext
    · simp only [ClassRegistry.update_registry_and_mark_cataloged]
      rw [hnoop]
    · simp only [ClassRegistry.update_registry_and_mark_cataloged]
      funext x
      by_cases hx : x = jar <;> simp [putManifest, hx]
  · simp only [ClassRegistry.update_registry_and_mark_cataloged]
    rw [hnoop]
  · intro k
    exact ClassRegistry.updateClasses_entry jar classes s.class_registry k
  · intro k hnd
    rcases ClassRegistry.updateClasses_entry jar classes s.class_registry k
      with h1 | ⟨h1, h2⟩
    · simp only [ClassRegistry.update_registry_and_mark_cataloged]
      rw [h1]
      exact hnd
    · simp only [ClassRegistry.update_registry_and_mark_cataloged]
      rw [h1]
      simp [List.nodup_append, hnd, h2]

/-- Witness for C4 on a fresh store: cataloging jar1 with two classes
twice reports 0 on the second call, and the entry for class a.A stays
duplicate-free. -/
theorem claim_C4_witness :
    (ClassRegistry.update_registry_and_mark_cataloged
        (ClassRegistry.update_registry_and_mark_cataloged
          ⟨fun _ => none, fun _ => none⟩ "jar1" ["a.A", "a.B"]).1
        "jar1" ["a.A", "a.B"]).2 = 0
    ∧ (((ClassRegistry.update_registry_and_mark_cataloged
        (⟨fun _ => none, fun _ => none⟩ : RegState) "jar1"
        ["a.A", "a.B"]).1.class_registry "a.A").getD []).Nodup :=
  ⟨(claim_C4 ⟨fun _ => none, fun _ => none⟩ "jar1" ["a.A", "a.B"]).2.1,
    (claim_C4 ⟨fun _ => none, fun _ => none⟩ "jar1" ["a.A", "a.B"]).2.2.2
      "a.A" (by decide)⟩

namespace IncrementalIndexer

theorem scanFold_congr (jars : List (String × Nat)) (t1 t2 : MtimeTable)
    (h : ∀ j ∈ jars, t1 j.1 = t2 j.1) :
    (scanFold t1 jars).1 = (scanFold t2 jars).1 := by
  induction jars generalizing t1 t2 with
  | nil => rfl
  | cons j rest ih =>
    obtain ⟨key, mtime⟩ := j
    have hold : t1 key = t2 key := h (key, mtime) (List.mem_cons_self _ _)
    have hrest : ∀ j ∈ rest,
        putMtime t1 key (min mtime u64Max) j.1 =
          putMtime t2 key (min mtime u64Max) j.1 := by
      intro j hj
      by_cases hk : j.1 = key <;>
        simp [putMtime, hk, h j (List.mem_cons_of_mem _ hj)]
    simp only [scanFold, hold, ih _ _ hrest]

theorem scanFold_untouched (jars : List (String × Nat)) (t : MtimeTable)
    (k : String) (hk : k ∉ jars.map Prod.fst) :
    (scanFold t jars).2 k = t k := by
  induction jars generalizing t with
  | nil => rfl
  | cons j rest ih =>
    obtain ⟨key, mtime⟩ := j
    have hk2 : k ∉ rest.map Prod.fst := by
      intro hm
      exact hk (by simp [hm])
    have hne : k ≠ key := by
      intro he
      exact hk (by simp [he])
    simp only [scanFold, ih _ hk2, putMtime, if_neg hne]

theorem scanFold_changed (jars : List (String × Nat)) (t : MtimeTable)
    (hnd : (jars.map Prod.fst).Nodup) :
    (scanFold t jars).1 =
      (jars.filter fun j => decide ((t j.1).getD 0 < min j.2 u64Max)).map
        Prod.fst := by
  induction jars generalizing t with
  | nil => rfl
  | cons j rest ih =>
    obtain ⟨key, mtime⟩ := j
    simp only [List.map_cons, List.nodup_cons] at hnd
    have hcongr : (scanFold (putMtime t key (min mtime u64Max)) rest).1 =
        (scanFold t rest).1 := by
      apply scanFold_congr
      intro j hj
      have hne : j.1 ≠ key := by
        intro he
        exact hnd.1 (he ▸ List.mem_map_of_mem Prod.fst hj)
      simp [putMtime, hne]
    simp only [scanFold, hcongr, ih _ hnd.2, List.filter_cons]
    by_cases hc : (t key).getD 0 < min mtime u64Max <;> simp [hc]

theorem scanFold_table (jars : List (String × Nat)) (t : MtimeTable)
    (k : String) (m : Nat) (hnd : (jars.map Prod.fst).Nodup)
    (hm : (k, m) ∈ jars) :
    (scanFold t jars).2 k = some (min m u64Max) := by
  induction jars generalizing t with
  | nil => cases hm
  | cons j rest ih =>
    obtain ⟨key, mtime⟩ := j
    simp only [List.map_cons, List.nodup_cons] at hnd
    rcases List.mem_cons.mp hm with he | hr
    · have h1 : k = key := congrArg Prod.fst he
      have h2 : m = mtime := congrArg Prod.snd he
      subst h1
      subst h2
      have hk2 : k ∉ rest.map Prod.fst := hnd.1
      simp only [scanFold]
      rw [scanFold_untouched rest _ k hk2]
      simp [putMtime]
    · simp only [scanFold]
      exact ih _ hnd.2 hr

end IncrementalIndexer

/-- C6 amended: scan_changes reports every discovered artifact exactly once
in the total, reports an artifact as changed exactly when its current
(u64-clamped) modification time exceeds the stored MtimeRecord value with a
missing record treated as 0, and unconditionally updates the MtimeRecord to
the current value; hence a first scan of an artifact with no prior record
reports it changed whenever its mtime is positive, an immediate second scan
with no modification reports it unchanged, and a scan after the mtime
increases reports it changed again. -/
theorem claim_C6 (table : MtimeTable) (jars : List (String × Nat)) :
    (IncrementalIndexer.scan_changes table jars).1.1 = jars.length
    ∧ ((jars.map Prod.fst).Nodup →
        (IncrementalIndexer.scan_changes table jars).1.2 =
          (jars.filter fun j =>
            decide ((table j.1).getD 0 < min j.2 u64Max)).map Prod.fst)
    ∧ (∀ k m, (jars.map Prod.fst).Nodup → (k, m) ∈ jars →
        (IncrementalIndexer.scan_changes table jars).2 k =
          some (min m u64Max))
    ∧ (∀ k m, table k = none → 0 < m →
        (IncrementalIndexer.scan_changes table [(k, m)]).1.2 = [k]
        ∧ (IncrementalIndexer.scan_changes
            (IncrementalIndexer.scan_changes table [(k, m)]).2
            [(k, m)]).1.2 = []
        ∧ ∀ m2, min m u64Max < min m2 u64Max →
            (IncrementalIndexer.scan_changes
              (IncrementalIndexer.scan_changes table [(k, m)]).2
              [(k, m2)]).1.2 = [k]) := by
  refine ⟨rfl, ?_, ?_, ?_⟩
  · intro hnd
    exact IncrementalIndexer.scanFold_changed jars table hnd
  · intro k m hnd hm
    exact IncrementalIndexer.scanFold_table jars table k m hnd hm
  · intro k m hnone hpos
    have hu : 0 < min m u64Max := by
      have : (0 : Nat) < u64Max := by decide
      omega
    refine ⟨?_, ?_, ?_⟩
    · simp [IncrementalIndexer.scan_changes, IncrementalIndexer.scanFold,
        hnone, hu]
    · simp [IncrementalIndexer.scan_changes, IncrementalIndexer.scanFold,
        hnone, putMtime]
    · intro m2 hm2
      simp [IncrementalIndexer.scan_changes, IncrementalIndexer.scanFold,
        hnone, putMtime, hm2]

/-- Witness for C6 on a fresh table: an artifact with mtime 5 is reported
changed on the first scan, unchanged on an identical second scan, and
changed again once its mtime grows to 7. -/
theorem claim_C6_witness :
    (IncrementalIndexer.scan_changes (fun _ => none) [("a.jar", 5)]).1.2 =
        ["a.jar"]
    ∧ (IncrementalIndexer.scan_changes
        (IncrementalIndexer.scan_changes (fun _ => none)
          [("a.jar", 5)]).2 [("a.jar", 5)]).1.2 = []
    ∧ (IncrementalIndexer.scan_changes
        (IncrementalIndexer.scan_changes (fun _ => none)
          [("a.jar", 5)]).2 [("a.jar", 7)]).1.2 = ["a.jar"] :=
  have h := (claim_C6 (fun _ => none) []).2.2.2 "a.jar" 5 rfl (by decide)
  ⟨h.1, h.2.1, h.2.2 7 (by decide)⟩

/-- Counterexample to C6 as stated: an artifact with no stored MtimeRecord
whose current modification time is 0 (the metadata-error fallback to the
UNIX epoch) is not reported as changed, although the claim says an absent
record always makes the artifact changed. -/
theorem claim_C6_counterexample :
    ((fun _ => none : MtimeTable) "a.jar" = none)
    ∧ (IncrementalIndexer.scan_changes (fun _ => none : MtimeTable)
        [("a.jar", 0)]).1.2 = [] :=
  ⟨rfl, by decide⟩

/-- C10: warmup_jar reports the number of classes parsed from the
decompiler output, counted before the mode, exclude-set and
package-info/module-info filters; the number of enqueued SourceRecords is
at most that count and can be strictly smaller (witnessed by a nested
class under TopLevelOnly mode); the value handed to mark_warmed is that
count truncated to u32, hence equal to it for any count below 2^32. -/
theorem claim_C10 (jarKey : String) (mode : WarmupMode)
    (exclude : List String) (classes : List ParsedClass) :
    (warmup_jar jarKey mode exclude classes).1 = classes.length
    ∧ (warmup_jar jarKey mode exclude classes).2.length ≤
        (warmup_jar jarKey mode exclude classes).1
    ∧ (classes.length < 2 ^ 32 →
        reportedClassCount (warmup_jar jarKey mode exclude classes).1 =
          classes.length)
    ∧ (warmup_jar "j" WarmupMode.TopLevelOnly [] [⟨"A$B", "x"⟩]).1 = 1
    ∧ (warmup_jar "j" WarmupMode.TopLevelOnly [] [⟨"A$B", "x"⟩]).2.length = 0 := by
  refine ⟨rfl, ?_, ?_, by decide, by decide⟩
  · simp only [warmup_jar, List.length_map]
    exact List.length_filter_le _ _
  · intro hlt
    simp only [warmup_jar, reportedClassCount]
    exact Nat.mod_eq_of_lt hlt

/-- Witness for C10: one parsed class, count below 2^32, reported count
equals the parsed count. -/
theorem claim_C10_witness :
    reportedClassCount
        (warmup_jar "j" WarmupMode.AllClasses []
          [⟨"a.A", "class A {}"⟩]).1 =
      ([⟨"a.A", "class A {}"⟩] : List ParsedClass).length :=
  (claim_C10 "j" WarmupMode.AllClasses [] [⟨"a.A", "class A {}"⟩]).2.2.1
    (by decide)

theorem toNat_injective (p q : WarmupPriority)
    (h : p.toNat = q.toNat) : p = q := by
  cases p <;> cases q <;> simp_all [WarmupPriority.toNat]

theorem cmp_not_lt_iff (a b : QueuedTask) :
    QueuedTask.cmp a b ≠ Ordering.lt ↔
      (b.priority.toNat < a.priority.toNat ∨
        (b.priority.toNat = a.priority.toNat ∧ a.seq ≤ b.seq)) := by
  unfold QueuedTask.cmp
  rcases Nat.lt_trichotomy a.priority.toNat b.priority.toNat with h | h | h
  · rw [(Nat.compare_eq_lt).mpr h]
    simp only [Ordering.then]
    constructor
    · intro hc; exact absurd rfl hc
    · intro hc; omega
  · rw [(Nat.compare_eq_eq).mpr h]
    simp only [Ordering.then]
    constructor
    · intro hc
      refine Or.inr ⟨h.symm, ?_⟩
      by_contra hle
      exact hc ((Nat.compare_eq_lt).mpr (by omega))
    · intro hc hlt
      have := (Nat.compare_eq_lt).mp hlt
      omega
  · rw [(Nat.compare_eq_gt).mpr h]
    simp only [Ordering.then]
    constructor
    · intro _; exact Or.inl h
    · intro _ hc; cases hc

theorem cmp_self_not_lt (a : QueuedTask) :
    QueuedTask.cmp a a ≠ Ordering.lt :=
  (cmp_not_lt_iff a a).mpr (Or.inr ⟨rfl, le_refl _⟩)

theorem cmp_lt_flip (a b : QueuedTask)
    (h : QueuedTask.cmp a b = Ordering.lt) :
    QueuedTask.cmp b a ≠ Ordering.lt := by
  rw [cmp_not_lt_iff]
  by_contra hc
  push_neg at hc
  have h2 : ¬(QueuedTask.cmp a b ≠ Ordering.lt) := fun hn => hn h
  rw [cmp_not_lt_iff] at h2
  push_neg at h2
  omega

theorem cmp_not_lt_trans (a b c : QueuedTask)
    (h1 : QueuedTask.cmp a b ≠ Ordering.lt)
    (h2 : QueuedTask.cmp b c ≠ Ordering.lt) :
    QueuedTask.cmp a c ≠ Ordering.lt := by
  rw [cmp_not_lt_iff] at h1 h2 ⊢
  omega

theorem popMax_eq_none (l : List QueuedTask) (h : popMax l = none) :
    l = [] := by
  cases l with
  | nil => rfl
  | cons x xs =>
    exfalso
    cases hx : popMax xs with
    | none => simp [popMax, hx] at h
    | some mr =>
      obtain ⟨m, mrest⟩ := mr
      simp only [popMax, hx] at h
      split at h <;> simp at h

theorem popMax_spec (l : List QueuedTask) (t : QueuedTask)
    (rest : List QueuedTask) (h : popMax l = some (t, rest)) :
    t ∈ l ∧ l.Perm (t :: rest) ∧
      ∀ u ∈ l, QueuedTask.cmp t u ≠ Ordering.lt := by
  induction l generalizing t rest with
  | nil => cases h
  | cons x xs ih =>
    cases hx : popMax xs with
    | none =>
      simp only [popMax, hx, Option.some.injEq, Prod.mk.injEq] at h
      have hxs : xs = [] := popMax_eq_none xs hx
      subst hxs
      obtain ⟨h1, h2⟩ := h
      subst h1
      subst h2
      refine ⟨List.mem_singleton_self _, List.Perm.refl _, ?_⟩
      intro u hu
      rw [List.mem_singleton.mp hu]
      exact cmp_self_not_lt x
    | some mr =>
      obtain ⟨m, mrest⟩ := mr
      simp only [popMax, hx] at h
      obtain ⟨hm, hperm, hmax⟩ := ih m mrest hx
      by_cases hc : QueuedTask.cmp x m = Ordering.lt
      · rw [if_pos hc] at h
        simp only [Option.some.injEq, Prod.mk.injEq] at h
        obtain ⟨h1, h2⟩ := h
        subst h1
        subst h2
        refine ⟨List.mem_cons_of_mem x hm, ?_, ?_⟩
        · exact (List.Perm.cons x hperm).trans (List.Perm.swap m x mrest)
        · intro u hu
          rcases List.mem_cons.mp hu with rfl | hu2
          · exact cmp_lt_flip u m hc
          · exact hmax u hu2
      · rw [if_neg hc] at h
        simp only [Option.some.injEq, Prod.mk.injEq] at h
        obtain ⟨h1, h2⟩ := h
        subst h1
        subst h2
        refine ⟨List.mem_cons_self _ _, List.Perm.cons x hperm, ?_⟩
        intro u hu
        rcases List.mem_cons.mp hu with rfl | hu2
        · exact cmp_self_not_lt u
        · exact cmp_not_lt_trans x m u hc (hmax u hu2)

theorem warm_preserve (maxConc : Nat) (P : WarmerState → Prop)
    (hstep : ∀ s ev, P s → P (warmStep maxConc s ev)) :
    ∀ (tr : List WarmEv) (s : WarmerState), P s →
      P (tr.foldl (warmStep maxConc) s) := by
  intro tr
  induction tr with
  | nil => intro s hs; exact hs
  | cons ev rest ih => intro s hs; exact ih _ (hstep s ev hs)

theorem warmStep_seq_inv (maxConc : Nat) (s : WarmerState) (ev : WarmEv)
    (h : (∀ qt ∈ s.queue, qt.seq < s.nextSeq) ∧
      (s.queue.map QueuedTask.seq).Nodup) :
    (∀ qt ∈ (warmStep maxConc s ev).queue,
        qt.seq < (warmStep maxConc s ev).nextSeq) ∧
      ((warmStep maxConc s ev).queue.map QueuedTask.seq).Nodup := by
  obtain ⟨hbound, hnd⟩ := h
  cases ev with
  | submit p jar =>
    simp only [warmStep]
    constructor
    · intro qt hqt
      rcases List.mem_append.mp hqt with hq | hq
      · exact Nat.lt_succ_of_lt (hbound qt hq)
      · rw [List.mem_singleton.mp hq]
        exact Nat.lt_succ_self _
    · rw [List.map_append]
      rw [List.nodup_append]
      refine ⟨hnd, List.nodup_singleton _, ?_⟩
      intro a ha hb
      rcases List.mem_map.mp ha with ⟨qt, hqt, rfl⟩
      have := hbound qt hqt
      simp only [List.map_cons, List.map_nil, List.mem_singleton] at hb
      omega
  | dispatch =>
    simp only [warmStep]
    by_cases hr : s.running.length < max maxConc 1
    · rw [if_pos hr]
      cases hp : popMax s.queue with
      | none => exact ⟨hbound, hnd⟩
      | some tr2 =>
        obtain ⟨t, rest⟩ := tr2
        obtain ⟨-, hperm, -⟩ := popMax_spec s.queue t rest hp
        have hmem : ∀ qt ∈ rest, qt ∈ s.queue := by
          intro qt hqt
          exact hperm.mem_iff.mpr (List.mem_cons_of_mem t hqt)
        have hnd2 : (rest.map QueuedTask.seq).Nodup := by
          have : ((t :: rest).map QueuedTask.seq).Nodup :=
            (hperm.map QueuedTask.seq).nodup_iff.mp hnd
          simpa using this.of_cons
        by_cases hf : t.jar ∈ s.inFlight <;>
          simp only [if_pos, if_neg, hf] <;>
          exact ⟨fun qt hqt => hbound qt (hmem qt hqt), hnd2⟩
    · rw [if_neg hr]
      exact ⟨hbound, hnd⟩
  | complete jar =>
    simp only [warmStep]
    by_cases hj : jar ∈ s.running <;> simp [hj] <;> exact ⟨hbound, hnd⟩
  | reapDone =>
    simp only [warmStep]
    cases s.doneChan <;> exact ⟨hbound, hnd⟩

/-- C8: a popped task is of maximal priority, and among queued tasks of
equal priority it has the least sequence number (so the earliest-submitted
equal-priority task is dispatched first); and along every trace sequence
numbers are assigned from the single monotonically increasing submission
counter, so all queued tasks carry distinct sequence numbers below the
counter. -/
theorem claim_C8 :
    (∀ (l : List QueuedTask) (t : QueuedTask) (rest : List QueuedTask),
        popMax l = some (t, rest) →
        t ∈ l ∧ ∀ u ∈ l,
          u.priority.toNat < t.priority.toNat ∨
            (u.priority = t.priority ∧ t.seq ≤ u.seq))
    ∧ (∀ maxConc tr,
        (∀ qt ∈ (runWarmer maxConc tr).queue,
          qt.seq < (runWarmer maxConc tr).nextSeq)
        ∧ ((runWarmer maxConc tr).queue.map QueuedTask.seq).Nodup) := by
  constructor
  · intro l t rest h
    obtain ⟨hmem, -, hmax⟩ := popMax_spec l t rest h
    refine ⟨hmem, ?_⟩
    intro u hu
    rcases (cmp_not_lt_iff t u).mp (hmax u hu) with h1 | ⟨h1, h2⟩
    · exact Or.inl h1
    · exact Or.inr ⟨toNat_injective _ _ h1, h2⟩
  · intro maxConc tr
    exact warm_preserve maxConc
      (fun s => (∀ qt ∈ s.queue, qt.seq < s.nextSeq) ∧
        (s.queue.map QueuedTask.seq).Nodup)
      (warmStep_seq_inv maxConc) tr initWarmer
      ⟨fun qt h => absurd h (List.not_mem_nil qt), List.nodup_nil⟩

/-- Witness for C8: with a Normal task (seq 0) and a High task (seq 1)
queued, pop returns the High task, the Normal task compares below it, and
after one submission the queued task sits below the counter. -/
theorem claim_C8_witness :
    ((⟨.High, 1, "b"⟩ : QueuedTask) ∈
        [(⟨.Normal, 0, "a"⟩ : QueuedTask), ⟨.High, 1, "b"⟩])
    ∧ ((⟨.Normal, 0, "a"⟩ : QueuedTask).priority.toNat <
          (⟨.High, 1, "b"⟩ : QueuedTask).priority.toNat ∨
        ((⟨.Normal, 0, "a"⟩ : QueuedTask).priority =
            (⟨.High, 1, "b"⟩ : QueuedTask).priority ∧
          (⟨.High, 1, "b"⟩ : QueuedTask).seq ≤
            (⟨.Normal, 0, "a"⟩ : QueuedTask).seq))
    ∧ (⟨.Normal, 0, "a"⟩ : QueuedTask).seq <
        (runWarmer 2 [WarmEv.submit .Normal "a"]).nextSeq :=
  have h := claim_C8.1 [⟨.Normal, 0, "a"⟩, ⟨.High, 1, "b"⟩]
    ⟨.High, 1, "b"⟩ [⟨.Normal, 0, "a"⟩] (by decide)
  ⟨h.1, h.2 ⟨.Normal, 0, "a"⟩ (by decide),
    (claim_C8.2 2 [WarmEv.submit .Normal "a"]).1 ⟨.Normal, 0, "a"⟩ (by decide)⟩

theorem warmStep_dedup_inv (maxConc : Nat) (s : WarmerState) (ev : WarmEv)
    (h : s.inFlight.Nodup ∧ ∀ jar,
      s.running.count jar + s.doneChan.count jar =
        (if jar ∈ s.inFlight then 1 else 0)) :
    (warmStep maxConc s ev).inFlight.Nodup ∧ ∀ jar,
      (warmStep maxConc s ev).running.count jar +
          (warmStep maxConc s ev).doneChan.count jar =
        (if jar ∈ (warmStep maxConc s ev).inFlight then 1 else 0) := by
  obtain ⟨hnd, hcnt⟩ := h
  cases ev with
  | submit p jar => exact ⟨hnd, hcnt⟩
  | dispatch =>
    simp only [warmStep]
    by_cases hr : s.running.length < max maxConc 1
    · simp only [if_pos hr]
      cases hp : popMax s.queue with
      | none =>
        simp only [hp]
        exact ⟨hnd, hcnt⟩
      | some tr2 =>
        obtain ⟨t, rest⟩ := tr2
        simp only [hp]
        by_cases hf : t.jar ∈ s.inFlight
        · simp only [if_pos hf]
          exact ⟨hnd, hcnt⟩
        · simp only [if_neg hf]
          refine ⟨List.nodup_cons.mpr ⟨hf, hnd⟩, ?_⟩
          intro jar
          by_cases hj : jar = t.jar
          · have h0 := hcnt t.jar
            rw [if_neg hf] at h0
            rw [hj, List.count_cons_self,
              if_pos (List.mem_cons_self t.jar s.inFlight)]
            omega
          · have h0 := hcnt jar
            rw [List.count_cons_of_ne hj]
            have hiff : jar ∈ t.jar :: s.inFlight ↔ jar ∈ s.inFlight := by
              simp [List.mem_cons, hj]
            rw [if_congr hiff rfl rfl]
            exact h0
    · simp only [if_neg hr]
      exact ⟨hnd, hcnt⟩
  | complete jar0 =>
    simp only [warmStep]
    by_cases hj0 : jar0 ∈ s.running
    · simp only [if_pos hj0]
      refine ⟨hnd, ?_⟩
      intro jar
      by_cases hj : jar = jar0
      · have hpos : 1 ≤ s.running.count jar0 := List.count_pos_iff.mpr hj0
        have h0 := hcnt jar0
        rw [hj, List.count_erase_self, List.count_append]
        have hone : List.count jar0 [jar0] = 1 := by simp
        rw [hone]
        omega
      · have h0 := hcnt jar
        rw [List.count_erase_of_ne hj, List.count_append]
        have hz : List.count jar [jar0] = 0 := by simp [hj]
        rw [hz]
        omega
    · simp only [if_neg hj0]
      exact ⟨hnd, hcnt⟩
  | reapDone =>
    cases hd : s.doneChan with
    | nil =>
      simp only [warmStep, hd]
      exact ⟨hnd, hd ▸ hcnt⟩
    | cons d drest =>
      simp only [warmStep, hd]
      have h0 := hcnt d
      rw [hd, List.count_cons_self] at h0
      have hdin : d ∈ s.inFlight := by
        by_contra hni
        rw [if_neg hni] at h0
        omega
      rw [if_pos hdin] at h0
      have hr0 : s.running.count d = 0 := by omega
      have hd0 : drest.count d = 0 := by omega
      refine ⟨hnd.erase d, ?_⟩
      intro jar
      by_cases hj : jar = d
      · subst hj
        have hne : jar ∉ s.inFlight.erase jar := hnd.not_mem_erase
        rw [if_neg hne]
        omega
      · have h1 := hcnt jar
        rw [hd, List.count_cons_of_ne hj] at h1
        have hiff : jar ∈ s.inFlight.erase d ↔ jar ∈ s.inFlight :=
          List.mem_erase_of_ne hj
        rw [if_congr hiff rfl rfl]
        exact h1

/-- C2: along every trace of submissions, dispatch steps, worker
completions and done-channel reaps, at most one task per artifact path is
in the running state; and when the scheduler pops a task whose artifact is
already in the in-flight set, the resulting state differs only by the
removal of that task from the queue: the task is discarded, never
re-queued, and nothing starts running. -/
theorem claim_C2 :
    (∀ maxConc (tr : List WarmEv) (jar : String),
        (runWarmer maxConc tr).running.count jar ≤ 1)
    ∧ (∀ maxConc (s : WarmerState) (t : QueuedTask)
        (rest : List QueuedTask),
        s.running.length < max maxConc 1 →
        popMax s.queue = some (t, rest) →
        t.jar ∈ s.inFlight →
        warmStep maxConc s WarmEv.dispatch = { s with queue := rest }) := by
  constructor
  · intro maxConc tr jar
    have hinv := warm_preserve maxConc
      (fun s => s.inFlight.Nodup ∧ ∀ jar,
        s.running.count jar + s.doneChan.count jar =
          (if jar ∈ s.inFlight then 1 else 0))
      (warmStep_dedup_inv maxConc) tr initWarmer
      ⟨List.nodup_nil, fun jar => by simp [initWarmer]⟩
    have h0 : (runWarmer maxConc tr).running.count jar +
        (runWarmer maxConc tr).doneChan.count jar =
        (if jar ∈ (runWarmer maxConc tr).inFlight then 1 else 0) :=
      hinv.2 jar
    by_cases hm : jar ∈ (runWarmer maxConc tr).inFlight
    · rw [if_pos hm] at h0
      omega
    · rw [if_neg hm] at h0
      omega
  · intro maxConc s t rest h1 h2 h3
    simp only [warmStep, if_pos h1, h2, if_pos h3]

/-- Witness for C2: a trace submitting two tasks for the same artifact and
dispatching twice runs at most one of them; and a concrete dispatch whose
popped artifact is in flight only pops the queue. -/
theorem claim_C2_witness :
    (runWarmer 2 [WarmEv.submit .Normal "a", WarmEv.dispatch,
        WarmEv.submit .High "a", WarmEv.dispatch]).running.count "a" ≤ 1
    ∧ warmStep 2
        { queue := [⟨.Normal, 1, "a"⟩], inFlight := ["a"], running := ["a"],
          doneChan := [], nextSeq := 2 } WarmEv.dispatch =
      { queue := [], inFlight := ["a"], running := ["a"],
        doneChan := [], nextSeq := 2 } :=
  ⟨claim_C2.1 2 [WarmEv.submit .Normal "a", WarmEv.dispatch,
      WarmEv.submit .High "a", WarmEv.dispatch] "a",
    claim_C2.2 2
      { queue := [⟨.Normal, 1, "a"⟩], inFlight := ["a"], running := ["a"],
        doneChan := [], nextSeq := 2 }
      ⟨.Normal, 1, "a"⟩ [] (by decide) (by decide) (by decide)⟩

/-- C5 fails on the code: spawn_warmer invokes mark_warmed immediately
after warmup_jar returns, which only enqueues the SourceRecords into the
Write Buffer.  At the concrete failing input below, after the worker body
of a successful task completes, the hotspot record is already warmed while
the single enqueued record is still pending in the buffer channel and not
yet readable from the Store. -/
theorem claim_C5 :
    ((workerComplete "jar1" WarmupMode.AllClasses []
        [⟨"a.A", "class A {}"⟩] initWarmSys).hotspot "jar1").map
      JarHotspot.warmed = some true
    ∧ (workerComplete "jar1" WarmupMode.AllClasses []
        [⟨"a.A", "class A {}"⟩] initWarmSys).buf.store "a.A::jar1" = none
    ∧ (workerComplete "jar1" WarmupMode.AllClasses []
        [⟨"a.A", "class A {}"⟩] initWarmSys).buf.pending = 1
    ∧ (workerComplete "jar1" WarmupMode.AllClasses []
        [⟨"a.A", "class A {}"⟩] initWarmSys).buf.chan =
      [⟨"a.A::jar1", "class A {}"⟩] := by
  refine ⟨by decide, by decide, by decide, by decide⟩

end ClassFinder
